import Mathlib

/-!
# Verification of the concurrent red-black tree `rbtree-go`

This file gives a shallow embedding of the Go package `rbtree` (file
`rbtree.go`) and settles the specification claims against it.

The Go code mutates heap-allocated nodes through pointers (`*RBTreeNode`),
so we model the store as an arena: a list of node records indexed by
natural numbers which play the role of pointers (`Option Nat` is a
possibly-nil pointer).  Every operation of the source is transcribed
statement by statement as a state-passing function on the arena.  Functions
whose Go originals recurse through pointers or loop take a fuel argument
and return `none` when the fuel runs out or when the Go original would
dereference `nil` or spin forever on a busy-wait; `some` results are the
values the Go code actually returns.

Keys and values are specialised to `Int` (the tests use integers; the Go
code is generic over `cmp.Ordered` keys).
-/

namespace RBGo

/-- Node color, as in the source (`red`, `black`). -/
inductive Color where
  | red
  | black
deriving DecidableEq

/-- Direction of a node relative to its parent (`root`, `left`, `right`). -/
inductive Direction where
  | root
  | left
  | right
deriving DecidableEq

/-- One `RBTreeNode` record: color, child/parent pointers (arena indices),
key, value, and the three synchronization words `flag` (writer lock),
`hp` (`hpflag`, reader count) and `marker`. -/
structure NodeRec where
  c : Color
  left : Option Nat
  right : Option Nat
  parent : Option Nat
  key : Int
  value : Int
  flag : Bool
  hp : Int
  marker : Bool
deriving DecidableEq

instance : Inhabited NodeRec :=
  ⟨⟨Color.red, none, none, none, 0, 0, false, 0, false⟩⟩

/-- The `RBTree` struct: arena of nodes (index = pointer identity),
root pointer and node count. -/
structure RBTree where
  heap : List NodeRec
  root : Option Nat
  count : Int
deriving DecidableEq

/-- Dereference a node pointer (meaningful only for live indices). -/
def nodeAt (t : RBTree) (i : Nat) : NodeRec :=
  (t.heap[i]?).getD default

/-- Write a node record back through a pointer. -/
def setAt (t : RBTree) (i : Nat) (r : NodeRec) : RBTree :=
  { t with heap := t.heap.set i r }

/-- In-place field update of the node at index `i`. -/
def updAt (t : RBTree) (i : Nat) (f : NodeRec → NodeRec) : RBTree :=
  setAt t i (f (nodeAt t i))

/-- `cmp.Compare` for `Int`: `-1` below, `0` equal, `+1` above. -/
def cmpI (x y : Int) : Ordering :=
  if x < y then .lt else if x > y then .gt else .eq

/-- `(n *RBTreeNode).dir()`: `root` when the parent pointer is nil,
otherwise `left` iff the parent's left child is `n`. -/
def dirOf (t : RBTree) (i : Nat) : Direction :=
  match (nodeAt t i).parent with
  | none => .root
  | some p => if (nodeAt t p).left = some i then .left else .right

/-- `(n *RBTreeNode).sibling()`. -/
def siblingOf (t : RBTree) (i : Nat) : Option Nat :=
  match (nodeAt t i).parent with
  | none => none
  | some p => if dirOf t i = .left then (nodeAt t p).right else (nodeAt t p).left

/-- `(n *RBTreeNode).uncle()`. -/
def uncleOf (t : RBTree) (i : Nat) : Option Nat :=
  match (nodeAt t i).parent with
  | none => none
  | some p =>
    match (nodeAt t p).parent with
    | none => none
    | some g => if dirOf t p = .left then (nodeAt t g).right else (nodeAt t g).left

/-- `(n *RBTreeNode).isRed()`: non-nil and red. -/
def isRedO (t : RBTree) (o : Option Nat) : Bool :=
  match o with
  | none => false
  | some i => match (nodeAt t i).c with | .red => true | .black => false

/-- `(n *RBTreeNode).isBlack()`: nil or black. -/
def isBlackO (t : RBTree) (o : Option Nat) : Bool :=
  match o with
  | none => true
  | some i => match (nodeAt t i).c with | .red => false | .black => true

/-- `(n *RBTreeNode).islock()`: load of the writer flag. -/
def islock (t : RBTree) (i : Nat) : Bool :=
  (nodeAt t i).flag

/-- `(n *RBTreeNode).isMark()`: load of the marker. -/
def isMark (t : RBTree) (i : Nat) : Bool :=
  (nodeAt t i).marker

/-- `(n *RBTreeNode).lock()`: fail on nil; CAS the flag `false→true`
(fail if already set); then observe the reader count and if it is
positive release the flag and fail. -/
def lock (t : RBTree) (o : Option Nat) : Bool × RBTree :=
  match o with
  | none => (false, t)
  | some i =>
    if (nodeAt t i).flag then (false, t)
    else
      let t1 := updAt t i fun r => { r with flag := true }
      if (nodeAt t1 i).hp > 0 then
        (false, updAt t1 i fun r => { r with flag := false })
      else (true, t1)

/-- `(n *RBTreeNode).unlock()`: CAS the flag `true→false` (nil is a no-op). -/
def unlock (t : RBTree) (o : Option Nat) : RBTree :=
  match o with
  | none => t
  | some i =>
    if (nodeAt t i).flag then updAt t i fun r => { r with flag := false } else t

/-- `(l *LocalArea).unlockArea()`: unlock every node recorded in the local
area, in order, then truncate the area. -/
def unlockArea (t : RBTree) (l : List Nat) : RBTree × List Nat :=
  (l.foldl (fun acc i => unlock acc (some i)) t, [])

/-- `(n *RBTreeNode).cleanMarker(left bool)`: clear the marker on `n`, on
its parent when present, and on the left (resp. right) child.  The child
dereference is guarded by the rotation's early return in the source, so a
nil child here is modelled as a no-op. -/
def cleanMarker (t : RBTree) (i : Nat) (isLeft : Bool) : RBTree :=
  let t := updAt t i fun r => { r with marker := false }
  let t :=
    match (nodeAt t i).parent with
    | none => t
    | some p => updAt t p fun r => { r with marker := false }
  if isLeft then
    match (nodeAt t i).left with
    | none => t
    | some j => updAt t j fun r => { r with marker := false }
  else
    match (nodeAt t i).right with
    | none => t
    | some j => updAt t j fun r => { r with marker := false }

/-- `(t *RBTree).rotateLeft(n)`, transcribed statement by statement
(every pointer is re-read from the store at the moment the Go code reads
it). -/
def rotateLeft (t : RBTree) (o : Option Nat) : RBTree :=
  match o with
  | none => t
  | some n =>
    match (nodeAt t n).right with
    | none => t
    | some newn =>
      let t := cleanMarker t n false
      let dir := dirOf t n
      let p := (nodeAt t n).parent
      let t := updAt t n fun r => { r with right := (nodeAt t newn).left }
      let t := updAt t n fun r => { r with parent := some newn }
      let t :=
        match (nodeAt t newn).left with
        | none => t
        | some nl => updAt t nl fun r => { r with parent := some n }
      let t := updAt t newn fun r => { r with parent := p }
      let t := updAt t newn fun r => { r with left := some n }
      match dir, p with
      | .root, _ => { t with root := some newn }
      | .left, some pp => updAt t pp fun r => { r with left := some newn }
      | .right, some pp => updAt t pp fun r => { r with right := some newn }
      | _, none => t

/-- `(t *RBTree).rotateRight(n)`. -/
def rotateRight (t : RBTree) (o : Option Nat) : RBTree :=
  match o with
  | none => t
  | some n =>
    match (nodeAt t n).left with
    | none => t
    | some newn =>
      let t := cleanMarker t n true
      let dir := dirOf t n
      let p := (nodeAt t n).parent
      let t := updAt t n fun r => { r with left := (nodeAt t newn).right }
      let t := updAt t n fun r => { r with parent := some newn }
      let t :=
        match (nodeAt t newn).right with
        | none => t
        | some nr => updAt t nr fun r => { r with parent := some n }
      let t := updAt t newn fun r => { r with parent := p }
      let t := updAt t newn fun r => { r with right := some n }
      match dir, p with
      | .root, _ => { t with root := some newn }
      | .left, some pp => updAt t pp fun r => { r with left := some newn }
      | .right, some pp => updAt t pp fun r => { r with right := some newn }
      | _, none => t

/-- The bounded ancestor walk of `getMarker` when `isUp` is false: up to
four ancestors, each first flag-CASed (a held flag makes the Go code spin
forever, modelled as `none`), then marker-CASed likewise, then the flag is
released and the ancestor recorded. -/
def getMarkerLoop : Nat → RBTree → Option Nat → List Nat → Option (RBTree × List Nat)
  | 0, t, _, m => some (t, m)
  | _+1, t, none, m => some (t, m)
  | k+1, t, some d, m =>
    if (nodeAt t d).flag then none
    else
      let t := updAt t d fun r => { r with flag := true }
      if (nodeAt t d).marker then none
      else
        let t := updAt t d fun r => { r with marker := true }
        let t := updAt t d fun r => { r with flag := false }
        getMarkerLoop k t (nodeAt t d).parent (m ++ [d])

/-- `(n *RBTreeNode).getMarker(m, isUp)`. -/
def getMarker (t : RBTree) (i : Nat) (m : List Nat) (isUp : Bool) :
    Option (RBTree × List Nat) :=
  match (nodeAt t i).parent with
  | none => some (t, m)
  | some p =>
    if isUp then
      match m.getLast? with
      | none => some (t, m)
      | some last =>
        match (nodeAt t last).parent with
        | none => some (t, m)
        | some lp =>
          if (nodeAt t lp).flag then none
          else
            let t := updAt t lp fun r => { r with flag := true }
            if (nodeAt t lp).marker then none
            else
              let t := updAt t lp fun r => { r with marker := true }
              let t := updAt t lp fun r => { r with flag := false }
              some (t, m ++ [lp])
    else
      getMarkerLoop 4 t (nodeAt t p).parent m

/-- `(n *RBTreeNode).unlockMarker(m)`: marker-CAS `true→false` on every
recorded node, then truncate the list. -/
def unlockMarker (t : RBTree) (m : List Nat) : RBTree × List Nat :=
  (m.foldl
    (fun acc j =>
      if (nodeAt acc j).marker then updAt acc j fun r => { r with marker := false }
      else acc) t, [])

/-- `(n *RBTreeNode).lockDelete(l)`: the delete-side local-area
acquisition.  The focus and its parent are only checked to be unlocked
(and appended); the sibling and the sibling's children are acquired with
`lock`. -/
def lockDelete (t : RBTree) (i : Nat) (l : List Nat) : Bool × RBTree × List Nat :=
  if islock t i then (false, t, l)
  else
    let l := l ++ [i]
    match (nodeAt t i).parent with
    | none => (true, t, l)
    | some p =>
      if islock t p then
        let (t, l) := unlockArea t l
        (false, t, l)
      else
        let l := l ++ [p]
        match siblingOf t i with
        | none => (true, t, l)
        | some s =>
          match lock t (some s) with
          | (false, t) =>
            let (t, l) := unlockArea t l
            (false, t, l)
          | (true, t) =>
            let l := l ++ [s]
            let step2 : Bool × RBTree × List Nat :=
              match (nodeAt t s).left with
              | none => (true, t, l)
              | some sl =>
                match lock t (some sl) with
                | (false, t) =>
                  let (t, l) := unlockArea t l
                  (false, t, l)
                | (true, t) => (true, t, l ++ [sl])
            match step2 with
            | (false, t, l) => (false, t, l)
            | (true, t, l) =>
              match (nodeAt t s).right with
              | none => (true, t, l)
              | some sr =>
                match lock t (some sr) with
                | (false, t) =>
                  let (t, l) := unlockArea t l
                  (false, t, l)
                | (true, t) => (true, t, l ++ [sr])

/-- `(n *RBTreeNode).lockInsert(l)`: the insert-side local-area
acquisition.  The focus must already be locked (and unmarked); parent,
sibling, grandparent and uncle are acquired with `lock`, each followed by a
marker check. -/
def lockInsert (t : RBTree) (i : Nat) (l : List Nat) : Bool × RBTree × List Nat :=
  if !islock t i || isMark t i then (false, t, l)
  else
    let l := l ++ [i]
    match (nodeAt t i).parent with
    | none => (true, t, l)
    | some p =>
      match lock t (some p) with
      | (pok, t) =>
        if !pok || isMark t p then
          let (t, l) := unlockArea t l
          (false, t, l)
        else
          let l := l ++ [p]
          let step2 : Bool × RBTree × List Nat :=
            match siblingOf t i with
            | none => (true, t, l)
            | some s =>
              match lock t (some s) with
              | (sok, t) =>
                if !sok || isMark t s then
                  let (t, l) := unlockArea t l
                  (false, t, l)
                else (true, t, l ++ [s])
          match step2 with
          | (false, t, l) => (false, t, l)
          | (true, t, l) =>
            let step3 : Bool × RBTree × List Nat :=
              match (nodeAt t p).parent with
              | none => (true, t, l)
              | some g =>
                match lock t (some g) with
                | (gok, t) =>
                  if !gok || isMark t g then
                    let (t, l) := unlockArea t l
                    (false, t, l)
                  else (true, t, l ++ [g])
            match step3 with
            | (false, t, l) => (false, t, l)
            | (true, t, l) =>
              match uncleOf t i with
              | none => (true, t, l)
              | some u =>
                match lock t (some u) with
                | (uok, t) =>
                  if !uok || isMark t u then
                    let (t, l) := unlockArea t l
                    (false, t, l)
                  else (true, t, l ++ [u])

/-- `(n *RBTreeNode).get(key)`: nil yields `(nil, true)`; a locked node
yields `(nil, false)` (retry); otherwise the reader count is incremented,
the descent continues in the matching child, and the count is decremented
on unwind. -/
def get : Nat → RBTree → Option Nat → Int → Option (Option Int × Bool × RBTree)
  | 0, _, _, _ => none
  | _+1, t, none, _ => some (none, true, t)
  | fuel+1, t, some i, key =>
    if islock t i then some (none, false, t)
    else
      let t := updAt t i fun r => { r with hp := r.hp + 1 }
      let res :=
        match cmpI key (nodeAt t i).key with
        | .eq => some (some (nodeAt t i).value, true, t)
        | .lt => get fuel t (nodeAt t i).left key
        | .gt => get fuel t (nodeAt t i).right key
      match res with
      | none => none
      | some (v, ok, t) => some (v, ok, updAt t i fun r => { r with hp := r.hp - 1 })

/-- The retry loop of `(t *RBTree).Get(key)`. -/
def getLoop : Nat → RBTree → Int → Option (Option Int × RBTree)
  | 0, _, _ => none
  | fuel+1, t, key =>
    match get (fuel+1) t t.root key with
    | none => none
    | some (b, ok, t) => if ok then some (b, t) else getLoop fuel t key

/-- `(t *RBTree).Get(key)`. -/
def Get (fuel : Nat) (t : RBTree) (key : Int) : Option (Option Int × RBTree) :=
  getLoop fuel t key

/-- `(t *RBTree).maintainAfterInsert(n, l)`: the five-case insertion fix of
the source, including the `lockInsert` extension of the local area before a
red-uncle recolor and the color rollback when the recursive fix fails. -/
def maintainAfterInsert : Nat → RBTree → Nat → List Nat → Option (Bool × RBTree × List Nat)
  | 0, _, _, _ => none
  | fuel+1, t, n, l =>
    if isBlackO t (some n) then some (true, t, l)
    else
      match (nodeAt t n).parent with
      | none => some (true, t, l)
      | some p =>
        if (nodeAt t p).c = Color.black then some (true, t, l)
        else
          match (nodeAt t p).parent with
          | none => some (true, updAt t p fun r => { r with c := Color.black }, l)
          | some _ =>
            if isRedO t (uncleOf t n) then
              match (nodeAt t p).parent with
              | none => none
              | some g =>
                match lockInsert t g l with
                | (false, t, l) => some (false, t, l)
                | (true, t, l) =>
                  let t := updAt t p fun r => { r with c := Color.black }
                  let t := updAt t g fun r => { r with c := Color.red }
                  match uncleOf t n with
                  | none => none
                  | some u =>
                    let t := updAt t u fun r => { r with c := Color.black }
                    match maintainAfterInsert fuel t g l with
                    | none => none
                    | some (pOk, t, l) =>
                      if pOk then some (true, t, l)
                      else
                        match (nodeAt t n).parent with
                        | none => none
                        | some p2 =>
                          let t := updAt t p2 fun r => { r with c := Color.red }
                          match (nodeAt t p2).parent with
                          | none => none
                          | some g2 =>
                            let t := updAt t g2 fun r => { r with c := Color.black }
                            match uncleOf t n with
                            | none => none
                            | some u2 =>
                              let t := updAt t u2 fun r => { r with c := Color.red }
                              some (false, t, l)
            else
              if dirOf t n ≠ dirOf t p then
                if dirOf t n = .left then
                  let t := rotateRight t (nodeAt t n).parent
                  let t := rotateLeft t (nodeAt t n).parent
                  match (nodeAt t n).left with
                  | none => none
                  | some child =>
                    let t := updAt t child fun r => { r with c := Color.red }
                    let t := updAt t n fun r => { r with c := Color.black }
                    some (true, t, l)
                else
                  let t := rotateLeft t (nodeAt t n).parent
                  let t := rotateRight t (nodeAt t n).parent
                  match (nodeAt t n).right with
                  | none => none
                  | some child =>
                    let t := updAt t child fun r => { r with c := Color.red }
                    let t := updAt t n fun r => { r with c := Color.black }
                    some (true, t, l)
              else
                let t :=
                  if dirOf t n = .left then
                    match (nodeAt t n).parent with
                    | none => rotateRight t none
                    | some p2 => rotateRight t (nodeAt t p2).parent
                  else
                    match (nodeAt t n).parent with
                    | none => rotateLeft t none
                    | some p2 => rotateLeft t (nodeAt t p2).parent
                match (nodeAt t n).parent with
                | none => none
                | some p3 =>
                  let t := updAt t p3 fun r => { r with c := Color.black }
                  match siblingOf t n with
                  | none => none
                  | some s =>
                    let t := updAt t s fun r => { r with c := Color.red }
                    some (true, t, l)

/-- `(t *RBTree).insert(n, key, value, l)`: hand-over-hand descent
(lock the node, unlock its parent), overwrite on an equal key, recurse into
a non-nil child on strict order, otherwise attach a fresh red leaf and, when
the parent is red, run the local-area acquisition and the insertion fix.
Deferred unlocks are applied on each return path in last-in-first-out
order, as Go runs them. -/
def insert : Nat → RBTree → Nat → Int → Int → List Nat →
    Option (Bool × Bool × RBTree × List Nat)
  | 0, _, _, _, _, _ => none
  | fuel+1, t, n, key, value, l =>
    match lock t (some n) with
    | (false, t) => some (false, false, t, l)
    | (true, t) =>
      let t :=
        match (nodeAt t n).parent with
        | none => t
        | some p => unlock t (some p)
      if (nodeAt t n).key = key then
        let t := updAt t n fun r => { r with value := value }
        some (false, true, unlock t (some n), l)
      else if (nodeAt t n).key > key ∧ (nodeAt t n).left ≠ none then
        match (nodeAt t n).left with
        | none => none
        | some nl =>
          match insert fuel t nl key value l with
          | none => none
          | some (isNew, ok, t, l) => some (isNew, ok, unlock t (some n), l)
      else if (nodeAt t n).key < key ∧ (nodeAt t n).right ≠ none then
        match (nodeAt t n).right with
        | none => none
        | some nr =>
          match insert fuel t nr key value l with
          | none => none
          | some (isNew, ok, t, l) => some (isNew, ok, unlock t (some n), l)
      else
        let newId := t.heap.length
        let t :=
          { t with heap :=
              t.heap ++ [⟨Color.red, none, none, some n, key, value, false, 0, false⟩] }
        let t :=
          if (nodeAt t n).key > key then updAt t n fun r => { r with left := some newId }
          else updAt t n fun r => { r with right := some newId }
        if isRedO t (some n) then
          let (_, t) := lock t (some newId)
          let t := unlock t (some n)
          match lockInsert t newId l with
          | (true, t, l) =>
            match maintainAfterInsert (fuel+1) t newId l with
            | none => none
            | some (ok, t, l) =>
              if !ok then
                let t :=
                  if (nodeAt t n).key > key then updAt t n fun r => { r with left := none }
                  else updAt t n fun r => { r with right := none }
                let (t, l) := unlockArea t l
                let t := unlock t (some newId)
                let t := unlock t (some n)
                some (true, false, t, l)
              else
                let (t, l) := unlockArea t l
                let t := unlock t (some newId)
                let t := unlock t (some n)
                some (true, true, t, l)
          | (false, t, l) =>
            let t :=
              if (nodeAt t n).key > key then updAt t n fun r => { r with left := none }
              else updAt t n fun r => { r with right := none }
            let t := unlock t (some newId)
            let t := unlock t (some n)
            some (true, false, t, l)
        else
          some (true, true, unlock t (some n), l)

/-- The retry loop of `(t *RBTree).Insert`: on conflict the local area is
truncated and the inner `insert` is invoked again from the root. -/
def insertLoop : Nat → RBTree → Int → Int → List Nat → Option (Bool × RBTree)
  | 0, _, _, _, _ => none
  | fuel+1, t, key, value, l =>
    match t.root with
    | none => none
    | some r =>
      match insert (fuel+1) t r key value l with
      | none => none
      | some (isNew, ok, t, l') =>
        if ok then some (isNew, t)
        else
          let _ := l'
          insertLoop fuel t key value []

/-- `(t *RBTree).Insert(key, value)`: an empty tree just installs a fresh
red root (without touching `count`); otherwise the retry loop runs and
`count` is incremented when the last attempt created a new node. -/
def Insert (fuel : Nat) (t : RBTree) (key value : Int) : Option RBTree :=
  match t.root with
  | none =>
    some { t with
      heap := t.heap ++ [⟨Color.red, none, none, none, key, value, false, 0, false⟩],
      root := some t.heap.length }
  | some _ =>
    match insertLoop fuel t key value [] with
    | none => none
    | some (isNew, t) =>
      some (if isNew then { t with count := t.count + 1 } else t)

/-- The successor scan `for s.left != nil { p = s; s = p.left }`. -/
def leftmostFrom : Nat → RBTree → Nat → Option Nat
  | 0, _, _ => none
  | fuel+1, t, s =>
    match (nodeAt t s).left with
    | none => some s
    | some sl => leftmostFrom fuel t sl

/-- `(t *RBTree).maintainAfterDelete(n, l, m)`: the six-case deletion fix,
with every pointer re-read at the moment the Go code reads it; a `nil`
dereference of the Go original is `none`. -/
def maintainAfterDelete : Nat → RBTree → Nat → List Nat → List Nat →
    Option (Bool × RBTree × List Nat × List Nat)
  | 0, _, _, _, _ => none
  | fuel+1, t, n, l, m =>
    match (nodeAt t n).parent with
    | none => some (true, t, l, m)
    | some _ =>
      let stageA : Option RBTree :=
        if isRedO t (siblingOf t n) then
          match siblingOf t n with
          | none => some t
          | some s =>
            let t :=
              if dirOf t n = .left then rotateLeft t (nodeAt t n).parent
              else rotateRight t (nodeAt t n).parent
            let t := updAt t s fun r => { r with c := Color.black }
            match (nodeAt t n).parent with
            | none => none
            | some p => some (updAt t p fun r => { r with c := Color.red })
        else some t
      match stageA with
      | none => none
      | some t =>
        match siblingOf t n, (nodeAt t n).parent with
        | none, _ => none
        | _, none => none
        | some s1, some p1 =>
          if isBlackO t (nodeAt t s1).left ∧ isBlackO t (nodeAt t s1).right ∧
              isRedO t (some p1) then
            let t := updAt t s1 fun r => { r with c := Color.red }
            let t := updAt t p1 fun r => { r with c := Color.black }
            some (true, t, l, m)
          else if isBlackO t (nodeAt t s1).left ∧ isBlackO t (nodeAt t s1).right ∧
              (nodeAt t p1).c = Color.black then
            let t := updAt t s1 fun r => { r with c := Color.red }
            match getMarker t p1 m true with
            | none => none
            | some (t, m) =>
              match maintainAfterDelete fuel t p1 l m with
              | none => none
              | some (_, t, l, m) => some (true, t, l, m)
          else
            let stageC : Option RBTree :=
              if dirOf t n = .left ∧ isRedO t (nodeAt t s1).left ∧
                  isBlackO t (nodeAt t s1).right then
                let t := rotateRight t (siblingOf t n)
                match siblingOf t n with
                | none => none
                | some s2 =>
                  match (nodeAt t s2).right with
                  | none => none
                  | some s2r =>
                    let t := updAt t s2r fun r => { r with c := Color.red }
                    match siblingOf t n with
                    | none => none
                    | some s3 => some (updAt t s3 fun r => { r with c := Color.black })
              else if dirOf t n = .right ∧ isRedO t (nodeAt t s1).right ∧
                  isBlackO t (nodeAt t s1).left then
                let t := rotateLeft t (siblingOf t n)
                match siblingOf t n with
                | none => none
                | some s2 =>
                  match (nodeAt t s2).left with
                  | none => none
                  | some s2l =>
                    let t := updAt t s2l fun r => { r with c := Color.red }
                    match siblingOf t n with
                    | none => none
                    | some s3 => some (updAt t s3 fun r => { r with c := Color.black })
              else some t
            match stageC with
            | none => none
            | some t =>
              let cond : Option Bool :=
                if dirOf t n = .left then
                  match siblingOf t n with
                  | none => none
                  | some s4 => some (isRedO t (nodeAt t s4).right)
                else if dirOf t n = .right then
                  match siblingOf t n with
                  | none => none
                  | some s4 => some (isRedO t (nodeAt t s4).left)
                else some false
              match cond with
              | none => none
              | some b =>
                if b then
                  let t :=
                    if dirOf t n = .left then rotateLeft t (nodeAt t n).parent
                    else rotateRight t (nodeAt t n).parent
                  match (nodeAt t n).parent with
                  | none => none
                  | some p2 =>
                    match (nodeAt t p2).parent with
                    | none => none
                    | some g2 =>
                      let cp := (nodeAt t p2).c
                      let cg := (nodeAt t g2).c
                      let t := updAt t g2 fun r => { r with c := cp }
                      let t := updAt t p2 fun r => { r with c := cg }
                      match siblingOf t p2 with
                      | none => none
                      | some ps =>
                        some (true, updAt t ps fun r => { r with c := Color.black }, l, m)
                else some (true, t, l, m)

/-- `(t *RBTree).delete(n, key, l, m)`: hand-over-hand descent (lock the
node, unlock the grandparent), and on a key match the local-area
acquisition, marker chain, successor swap and physical removal, with the
deferred unlocks applied in last-in-first-out order on every return path.
The deferred `n.unlock()` targets the node bound at `defer` time, i.e. the
node at which the key matched, not the successor. -/
def delete : Nat → RBTree → Option Nat → Int → List Nat → List Nat →
    Option (Option Int × Bool × RBTree × List Nat × List Nat)
  | 0, _, _, _, _, _ => none
  | _+1, t, none, _, l, m => some (none, true, t, l, m)
  | fuel+1, t, some i, key, l, m =>
    match lock t (some i) with
    | (false, t) => some (none, false, t, l, m)
    | (true, t) =>
      let t :=
        match (nodeAt t i).parent with
        | none => t
        | some p =>
          match (nodeAt t p).parent with
          | none => t
          | some g => unlock t (some g)
      match cmpI key (nodeAt t i).key with
      | .lt =>
        match delete fuel t (nodeAt t i).left key l m with
        | none => none
        | some (v, ok, t, l, m) => some (v, ok, unlock t (some i), l, m)
      | .gt =>
        match delete fuel t (nodeAt t i).right key l m with
        | none => none
        | some (v, ok, t, l, m) => some (v, ok, unlock t (some i), l, m)
      | .eq =>
        match lockDelete t i l with
        | (false, t, l) => some (none, false, unlock t (some i), l, m)
        | (true, t, l) =>
          match getMarker t i m false with
          | none => none
          | some (t, m) =>
            let v := (nodeAt t i).value
            let step1 : Option (RBTree × Nat) :=
              if (nodeAt t i).left ≠ none ∧ (nodeAt t i).right ≠ none then
                match (nodeAt t i).right with
                | none => none
                | some rr =>
                  match leftmostFrom (fuel+1) t rr with
                  | none => none
                  | some s =>
                    let ki := (nodeAt t i).key
                    let vi := (nodeAt t i).value
                    let ks := (nodeAt t s).key
                    let vs := (nodeAt t s).value
                    let t := updAt t i fun r => { r with key := ks, value := vs }
                    let t := updAt t s fun r => { r with key := ki, value := vi }
                    some (t, s)
              else some (t, i)
            match step1 with
            | none => none
            | some (t, nn) =>
              if (nodeAt t nn).left = none ∧ (nodeAt t nn).right = none then
                let fix : Option (RBTree × List Nat × List Nat) :=
                  if (nodeAt t nn).c = Color.black then
                    match maintainAfterDelete (fuel+1) t nn l m with
                    | none => none
                    | some (_, t, l, m) => some (t, l, m)
                  else some (t, l, m)
                match fix with
                | none => none
                | some (t, l, m) =>
                  let detach : Option RBTree :=
                    if dirOf t nn = .left then
                      match (nodeAt t nn).parent with
                      | none => none
                      | some p => some (updAt t p fun r => { r with left := none })
                    else
                      match (nodeAt t nn).parent with
                      | none => none
                      | some p => some (updAt t p fun r => { r with right := none })
                  match detach with
                  | none => none
                  | some t =>
                    let t := { t with count := t.count - 1 }
                    let (t, m) := unlockMarker t m
                    let (t, l) := unlockArea t l
                    let t := unlock t (some i)
                    some (some v, true, t, l, m)
              else
                let rep? : Option Nat :=
                  if (nodeAt t nn).left = none then (nodeAt t nn).right
                  else (nodeAt t nn).left
                match rep? with
                | none => none
                | some rep =>
                  let p := (nodeAt t nn).parent
                  let t :=
                    match dirOf t nn, p with
                    | .root, _ => { t with root := some rep }
                    | .left, some pp => updAt t pp fun r => { r with left := some rep }
                    | .right, some pp => updAt t pp fun r => { r with right := some rep }
                    | _, none => t
                  let t := updAt t rep fun r => { r with parent := p }
                  let t := updAt t rep fun r => { r with c := Color.black }
                  let t := { t with count := t.count - 1 }
                  let (t, m) := unlockMarker t m
                  let (t, l) := unlockArea t l
                  let t := unlock t (some i)
                  some (some v, true, t, l, m)

/-- The retry loop of `(t *RBTree).Delete`: on conflict both the local
area and the marker list are truncated and the inner `delete` runs again
from the root. -/
def deleteLoop : Nat → RBTree → Int → Option (Option Int × RBTree)
  | 0, _, _ => none
  | fuel+1, t, key =>
    match delete (fuel+1) t t.root key [] [] with
    | none => none
    | some (b, ok, t, _, _) => if ok then some (b, t) else deleteLoop fuel t key

/-- `(t *RBTree).Delete(key)`: the fast path removes the root without any
flag interaction when `count == 1` and the root key matches (dereferencing
a nil root, which Go would panic on, is `none`); otherwise the retry loop
runs. -/
def Delete (fuel : Nat) (t : RBTree) (key : Int) : Option (Option Int × RBTree) :=
  if t.count = 1 then
    match t.root with
    | none => none
    | some r =>
      if (nodeAt t r).key = key then
        some (some (nodeAt t r).value, { t with root := none, count := t.count - 1 })
      else deleteLoop fuel t key
  else deleteLoop fuel t key

/-- `NewRBTree(key, value)`: a single red root, `count = 1`. -/
def NewRBTree (key value : Int) : RBTree :=
  { heap := [⟨Color.red, none, none, none, key, value, false, 0, false⟩],
    root := some 0, count := 1 }

/-- Fueled in-order traversal of the arena, listing `(key, value)` pairs. -/
def inorderA : Nat → RBTree → Option Nat → Option (List (Int × Int))
  | 0, _, _ => none
  | _+1, _, none => some []
  | fuel+1, t, some i =>
    match inorderA fuel t (nodeAt t i).left, inorderA fuel t (nodeAt t i).right with
    | some ls, some rs => some (ls ++ [((nodeAt t i).key, (nodeAt t i).value)] ++ rs)
    | _, _ => none

/-! ## Concrete states used by the tests and the claims -/

/-- The tree of the source's `TestDeleteCase1`:
`NewRBTree(1,1); Insert(0,0); Insert(2,2)` — root key 1 (black), children
0 and 2 (red). -/
def tree102 : RBTree :=
  { heap := [⟨Color.black, some 1, some 2, none, 1, 1, false, 0, false⟩,
             ⟨Color.red, none, none, some 0, 0, 0, false, 0, false⟩,
             ⟨Color.red, none, none, some 0, 2, 2, false, 0, false⟩],
    root := some 0, count := 3 }

/-- The build of the spec's scenario 2: `NewRBTree(2,2)` then inserts of
1, 3, 0. -/
def build2130 : Option RBTree :=
  ((Insert 9 (NewRBTree 2 2) 1 1).bind fun t => Insert 9 t 3 3).bind fun t =>
    Insert 9 t 0 0

/-- The state the source actually produces for scenario 2: key 2 at the
root but colored red (the red-uncle recolor turns the root red and the
recursive fix stops at the root without re-blackening it). -/
def tree2130 : RBTree :=
  { heap := [⟨Color.red, some 1, some 2, none, 2, 2, false, 0, false⟩,
             ⟨Color.black, some 3, none, some 0, 1, 1, false, 0, false⟩,
             ⟨Color.black, none, none, some 0, 3, 3, false, 0, false⟩,
             ⟨Color.red, none, none, some 1, 0, 0, false, 0, false⟩],
    root := some 0, count := 4 }

/-- A single-node tree whose root's writer-flag is held by another writer. -/
def treeHeldRoot : RBTree :=
  { heap := [⟨Color.black, none, none, none, 1, 7, true, 0, false⟩],
    root := some 0, count := 1 }

/-- A single-node tree with one active reader on the root. -/
def treeWithReader : RBTree :=
  { heap := [⟨Color.black, none, none, none, 4, 4, false, 1, false⟩],
    root := some 0, count := 1 }

/-- A five-node delete neighborhood with every synchronization word free:
focus 0 under parent 1, sibling 2 with children 3 and 4. -/
def treeDeleteArea : RBTree :=
  { heap := [⟨Color.black, none, none, some 1, 0, 0, false, 0, false⟩,
             ⟨Color.black, some 0, some 2, none, 1, 1, false, 0, false⟩,
             ⟨Color.red, some 3, some 4, some 1, 3, 3, false, 0, false⟩,
             ⟨Color.black, none, none, some 2, 2, 2, false, 0, false⟩,
             ⟨Color.black, none, none, some 2, 4, 4, false, 0, false⟩],
    root := some 1, count := 5 }

/-- The same five-node delete neighborhood with arbitrary synchronization
words on the five nodes. -/
def treeDeleteAreaGen (f0 f1 f2 f3 f4 : Bool) (h2 h3 h4 : Int) : RBTree :=
  { heap := [⟨Color.black, none, none, some 1, 0, 0, f0, 0, false⟩,
             ⟨Color.black, some 0, some 2, none, 1, 1, f1, 0, false⟩,
             ⟨Color.red, some 3, some 4, some 1, 3, 3, f2, h2, false⟩,
             ⟨Color.black, none, none, some 2, 2, 2, f3, h3, false⟩,
             ⟨Color.black, none, none, some 2, 4, 4, f4, h4, false⟩],
    root := some 1, count := 5 }

/-- Modelled from the spec: the `Delete` retry policy of §4.6/§9 — whenever
an inner delete attempt signals conflict, every subsequent attempt
re-invokes the delete path (never the read path) until an attempt
succeeds. -/
def deleteRetrySpec : Nat → RBTree → Int → Option (Option Int × RBTree)
  | 0, _, _ => none
  | fuel+1, t, key =>
    match delete (fuel+1) t t.root key [] [] with
    | none => none
    | some (b, ok, t, _, _) =>
      if ok then some (b, t) else deleteRetrySpec fuel t key

/-! ## Pure view of the arena

To state the general claims we relate the arena to an ordinary inductive
tree decorated with the arena index of each node.  `HeapShape h p T` says
that `T` faithfully describes the records reachable in `h` from `rootO T`,
with parent pointers threaded correctly (`p` is the parent index of the
root of `T`). -/

/-- Per-node data without the pointer fields. -/
structure NData where
  c : Color
  key : Int
  value : Int
  flag : Bool
  hp : Int
  marker : Bool
deriving DecidableEq

/-- Pack pure data and pointers back into an arena record. -/
def NData.toRec (d : NData) (parent left right : Option Nat) : NodeRec :=
  ⟨d.c, left, right, parent, d.key, d.value, d.flag, d.hp, d.marker⟩

/-- Index-decorated binary tree. -/
inductive ITree where
  | nil
  | node (i : Nat) (d : NData) (l r : ITree)

/-- The arena index of the root, `none` for the empty tree. -/
def rootO : ITree → Option Nat
  | .nil => none
  | .node i _ _ _ => some i

/-- All arena indices of a pure tree. -/
def idsI : ITree → List Nat
  | .nil => []
  | .node i _ l r => i :: (idsI l ++ idsI r)

/-- All keys of a pure tree. -/
def keysI : ITree → List Int
  | .nil => []
  | .node _ d l r => d.key :: (keysI l ++ keysI r)

/-- Number of nodes. -/
def sizeI : ITree → Nat
  | .nil => 0
  | .node _ _ l r => sizeI l + sizeI r + 1

/-- Every node has a free writer-flag and no active readers. -/
def WellSync : ITree → Prop
  | .nil => True
  | .node _ d l r => d.flag = false ∧ d.hp ≤ 0 ∧ WellSync l ∧ WellSync r

/-- `HeapShape h p T`: the arena `h` contains, at the indices of `T`,
exactly the records described by `T`, with parent pointer `p` at the root. -/
inductive HeapShape (h : List NodeRec) : Option Nat → ITree → Prop
  | nil (p : Option Nat) : HeapShape h p .nil
  | node (p : Option Nat) (i : Nat) (d : NData) (l r : ITree)
      (hrec : h[i]? = some (d.toRec p (rootO l) (rootO r)))
      (hl : HeapShape h (some i) l) (hr : HeapShape h (some i) r) :
      HeapShape h p (.node i d l r)

/-- Length of the comparison-driven search path for `k` (used to describe
which ancestors the hand-over-hand descent has unlocked). -/
def pathLen (k : Int) : ITree → Nat
  | .nil => 0
  | .node _ d l r => 1 + (if k < d.key then pathLen k l else pathLen k r)

/-- Force a writer-flag to `false` through a possibly-nil pointer. -/
def clearF (t : RBTree) (o : Option Nat) : RBTree :=
  match o with
  | none => t
  | some j => updAt t j fun r => { r with flag := false }

/-- Conditionally force a writer-flag to `false`. -/
def condClear (b : Bool) (o : Option Nat) (t : RBTree) : RBTree :=
  if b then clearF t o else t

/-- Induction motive for the missing-key descent of `delete`: the attempt
returns `(nil, true)` and the only heap changes are the hand-over-hand
unlocks of the two ancestors `p` and `gp` of the subtree root. -/
def DeleteMissSpec (k : Int) (T : ITree) : Prop :=
  ∀ (fuel : Nat) (t : RBTree) (p gp : Option Nat) (l m : List Nat),
    HeapShape t.heap p T →
    (idsI T).Nodup →
    WellSync T →
    k ∉ keysI T →
    sizeI T < fuel →
    (p = none → gp = none) →
    (∀ pi, p = some pi → pi ∉ idsI T ∧ (nodeAt t pi).parent = gp ∧ (nodeAt t pi).flag = true) →
    (∀ gi, gp = some gi → gi ∉ idsI T ∧ p ≠ some gi ∧ (nodeAt t gi).flag = true) →
    ∃ t2, delete fuel t (rootO T) k l m = some (none, true, t2, l, m) ∧
      t2.root = t.root ∧ t2.count = t.count ∧ t2.heap.length = t.heap.length ∧
      (∀ j : Nat, p ≠ some j → gp ≠ some j → t2.heap[j]? = t.heap[j]?) ∧
      (∀ gi, gp = some gi →
        (1 ≤ pathLen k T → t2.heap[gi]? = some { nodeAt t gi with flag := false }) ∧
        (pathLen k T = 0 → t2.heap[gi]? = t.heap[gi]?)) ∧
      (∀ pi, p = some pi →
        (2 ≤ pathLen k T → t2.heap[pi]? = some { nodeAt t pi with flag := false }) ∧
        (pathLen k T ≤ 1 → t2.heap[pi]? = t.heap[pi]?))

def treeI102 : ITree :=
  .node 0 ⟨Color.black, 1, 1, false, 0, false⟩
    (.node 1 ⟨Color.red, 0, 0, false, 0, false⟩ .nil .nil)
    (.node 2 ⟨Color.red, 2, 2, false, 0, false⟩ .nil .nil)

/-! ## Basic arena lemmas -/

theorem set_self_of_getElem {α : Type} {l : List α} {i : Nat} {a : α}
    (h : l[i]? = some a) : l.set i a = l := by
  induction l generalizing i with
  | nil => simp at h
  | cons x xs ih =>
    cases i with
    | zero => simp_all
    | succ j =>
      simp only [List.getElem?_cons_succ] at h
      simpa using ih h

theorem nodeAt_lt_length {t : RBTree} {i : Nat} (h : ¬ i < t.heap.length) :
    nodeAt t i = default := by
  simp [nodeAt, List.getElem?_eq_none (Nat.le_of_not_lt h)]

theorem getElem_eq_nodeAt {t : RBTree} {i : Nat} (h : i < t.heap.length) :
    t.heap[i]? = some (nodeAt t i) := by
  simp [nodeAt, List.getElem?_eq_getElem h]

theorem nodeAt_setAt_self {t : RBTree} {i : Nat} {r : NodeRec} (h : i < t.heap.length) :
    nodeAt (setAt t i r) i = r := by
  simp [nodeAt, setAt, List.getElem?_set_self h]

theorem nodeAt_setAt_ne {t : RBTree} {i j : Nat} {r : NodeRec} (h : i ≠ j) :
    nodeAt (setAt t i r) j = nodeAt t j := by
  simp [nodeAt, setAt, List.getElem?_set_ne h]

/-! ## Helper computations -/

theorem tree102_built :
    (Insert 9 (NewRBTree 1 1) 0 0).bind (fun t => Insert 9 t 2 2) = some tree102 := by
  decide

theorem build2130_eq : build2130 = some tree2130 := by decide

theorem delete_attempt_tree102 (fuel : Nat) :
    delete (fuel+1) tree102 tree102.root 1 [] [] = some (none, false, tree102, [], []) := rfl

theorem deleteLoop_tree102 : ∀ fuel, deleteLoop fuel tree102 1 = none := by
  intro fuel
  induction fuel with
  | zero => rfl
  | succ n ih =>
    rw [deleteLoop, delete_attempt_tree102]
    simpa using ih

/-! ## Claims -/

/-- **C1.**  The claim says a sequential `Delete(k)` terminates and returns
the prior value of a present key.  On the tree of the source's own
`TestDeleteCase1` (`NewRBTree(1,1); Insert(0,0); Insert(2,2)`), `Delete(1)`
never returns: the inner `delete` locks the focus and then calls
`lockDelete`, which refuses because the focus's writer-flag is set (by
`delete` itself), so every attempt reports a conflict, the state is
restored exactly, and the retry loop spins forever.  The theorem shows the
fueled loop fails for every amount of fuel. -/
theorem C1_delete_present_key_diverges : ∀ fuel, Delete fuel tree102 1 = none := by
  intro fuel
  have h : ¬ tree102.count = 1 := by decide
  simp [Delete, h, deleteLoop_tree102 fuel]

/-- **C2 counterexample.**  After building keys `[2,1,3,0]` via
constructor+inserts, the root holds key 2 but is red, not black: the
red-uncle recolor paints the root red and the recursive fix returns at the
root without restoring its color. -/
theorem C2_counterexample_root_red :
    build2130.map (fun t => t.root.map fun r => ((nodeAt t r).key, (nodeAt t r).c))
      = some (some (2, Color.red)) := by decide

/-- **C3.**  `count` fails to equal the in-order length once the tree has
been emptied and refilled: `NewRBTree(1,10); Delete(1); Insert(2,20)`
leaves one node in the tree but `count = 0`, because the `t.root == nil`
branch of `Insert` installs the root without incrementing `count`. -/
theorem C3_count_desync :
    ((Delete 5 (NewRBTree 1 10) 1).bind fun p => Insert 5 p.2 2 20).map
      (fun t => (t.count, (inorderA 5 t t.root).map List.length)) = some (0, some 1) := by
  decide

/-- **C4 counterexample.**  A successful `lockDelete` on the five-node
neighborhood records the focus and its parent in the local area but leaves
their writer-flags clear: only the sibling and the sibling's children are
CAS-acquired, contradicting "acquired in that fixed order … each by CAS". -/
theorem C4_counterexample_no_cas_on_focus :
    (lockDelete treeDeleteArea 0 []).1 = true ∧
    (nodeAt (lockDelete treeDeleteArea 0 []).2.1 0).flag = false ∧
    (nodeAt (lockDelete treeDeleteArea 0 []).2.1 1).flag = false ∧
    (nodeAt (lockDelete treeDeleteArea 0 []).2.1 2).flag = true ∧
    (nodeAt (lockDelete treeDeleteArea 0 []).2.1 3).flag = true ∧
    (nodeAt (lockDelete treeDeleteArea 0 []).2.1 4).flag = true ∧
    (lockDelete treeDeleteArea 0 []).2.2 = [0, 1, 2, 3, 4] := by decide

/-- **C4 amended.**  On the delete neighborhood, provided the focus and
parent flags are observed clear and the sibling and its children are
lockable, `lockDelete` succeeds, the local area lists exactly focus,
parent, sibling, sibling's left child, sibling's right child in that
order, and only the last three have their writer-flags CAS-acquired (set);
the focus and parent flags are checked but left untouched. -/
theorem C4_lockDelete_order (f0 f1 f2 f3 f4 : Bool) (h2 h3 h4 : Int)
    (hf0 : f0 = false) (hf1 : f1 = false) (hf2 : f2 = false) (hf3 : f3 = false)
    (hf4 : f4 = false) (hh2 : ¬ h2 > 0) (hh3 : ¬ h3 > 0) (hh4 : ¬ h4 > 0) :
    lockDelete (treeDeleteAreaGen f0 f1 f2 f3 f4 h2 h3 h4) 0 [] =
      (true, treeDeleteAreaGen f0 f1 true true true h2 h3 h4, [0, 1, 2, 3, 4]) := by
  subst hf0 hf1 hf2 hf3 hf4
  simp [lockDelete, islock, lock, siblingOf, dirOf, nodeAt, updAt, setAt,
    treeDeleteAreaGen, hh2, hh3, hh4, List.set]

/-- Witness for C4 with all synchronization words free. -/
theorem C4_witness :
    ¬ (0:Int) > 0 ∧
      lockDelete (treeDeleteAreaGen false false false false false 0 0 0) 0 [] =
        (true, treeDeleteAreaGen false false true true true 0 0 0, [0, 1, 2, 3, 4]) :=
  ⟨by decide, C4_lockDelete_order false false false false false 0 0 0 rfl rfl rfl rfl rfl
    (by decide) (by decide) (by decide)⟩

theorem C2gen (k0 v0 k1 v1 : Int) (fuel : Nat) (h : k1 ≠ k0) :
    (Insert (fuel+1) (NewRBTree k0 v0) k1 v1).map
      (fun t => t.root.map fun r => (nodeAt t r).c) = some (some Color.black) := by
  rcases lt_or_gt_of_ne h with hlt | hgt
  · have hne : ¬ ((k0:Int) = k1) := by omega
    have hgt0 : (k0:Int) > k1 := hlt
    have hnlt : ¬ ((k0:Int) < k1) := by omega
    simp [Insert, NewRBTree, insertLoop, insert, lock, unlock, updAt, setAt, nodeAt,
      lockInsert, maintainAfterInsert, unlockArea, islock, isMark, isRedO, isBlackO,
      siblingOf, uncleOf, dirOf, hne, hgt0, hnlt, List.set]
  · have hne : ¬ ((k0:Int) = k1) := by omega
    have hnlt : ¬ ((k0:Int) > k1) := by omega
    have hlt0 : (k0:Int) < k1 := hgt
    simp [Insert, NewRBTree, insertLoop, insert, lock, unlock, updAt, setAt, nodeAt,
      lockInsert, maintainAfterInsert, unlockArea, islock, isMark, isRedO, isBlackO,
      siblingOf, uncleOf, dirOf, hne, hnlt, hlt0, List.set]

/-- **C2 amended.**  The first `Insert` of a key distinct from the
constructor's root key does color the root black, but the root does not
stay black: the red-uncle recolor can paint it red again and the fix
stops at the root without restoring it.  Concretely, building `[2,1,3,0]`
yields key 2 at the root colored red, key 1 as its black left child,
key 3 as its black right child, and key 0 as a red grandchild. -/
theorem C2_amended_root_color :
    (∀ (k0 v0 k1 v1 : Int) (fuel : Nat), k1 ≠ k0 →
      (Insert (fuel+1) (NewRBTree k0 v0) k1 v1).map
        (fun t => t.root.map fun r => (nodeAt t r).c) = some (some Color.black)) ∧
    build2130 = some tree2130 ∧
    tree2130.root = some 0 ∧
    (nodeAt tree2130 0).key = 2 ∧ (nodeAt tree2130 0).c = Color.red ∧
    (nodeAt tree2130 0).left = some 1 ∧ (nodeAt tree2130 1).key = 1 ∧
    (nodeAt tree2130 1).c = Color.black ∧
    (nodeAt tree2130 0).right = some 2 ∧ (nodeAt tree2130 2).key = 3 ∧
    (nodeAt tree2130 2).c = Color.black ∧
    (nodeAt tree2130 1).left = some 3 ∧ (nodeAt tree2130 3).key = 0 ∧
    (nodeAt tree2130 3).c = Color.red := by
  refine ⟨C2gen, ?_⟩
  decide

/-- Witness for C2 at the concrete first insert `NewRBTree(2,5); Insert(1,6)`. -/
theorem C2_witness :
    (1:Int) ≠ 2 ∧
      (Insert 1 (NewRBTree 2 5) 1 6).map (fun t => t.root.map fun r => (nodeAt t r).c)
        = some (some Color.black) :=
  ⟨by decide, C2_amended_root_color.1 2 5 1 6 0 (by decide)⟩

/-- **C5.**  Writer-flag acquisition fails on any node with a positive
reader count, and leaves the node's state exactly as it found it: the flag
is CASed `false→true` first, the reader count is observed second, and on a
positive count the flag is released and failure reported.  (The source's
primary variant compares against 0, matching the spec's chosen
threshold.) -/
theorem C5_lock_fails_on_readers (t : RBTree) (i : Nat) (h : (nodeAt t i).hp > 0) :
    lock t (some i) = (false, t) := by
  have hlen : i < t.heap.length := by
    by_contra hc
    rw [nodeAt_lt_length hc] at h
    exact absurd h (by decide)
  by_cases hf : (nodeAt t i).flag
  · simp [lock, hf]
  · have h1 : nodeAt (updAt t i fun r => { r with flag := true }) i
        = { nodeAt t i with flag := true } := by
      simpa [updAt] using nodeAt_setAt_self (t := t) (r := { nodeAt t i with flag := true }) hlen
    have hhp : (nodeAt (updAt t i fun r => { r with flag := true }) i).hp > 0 := by
      rw [h1]; exact h
    have key : updAt (updAt t i fun r => { r with flag := true }) i
        (fun r => { r with flag := false }) = t := by
      have horig : t.heap[i]? = some (nodeAt t i) := getElem_eq_nodeAt hlen
      have step : updAt (updAt t i fun r => { r with flag := true }) i
          (fun r => { r with flag := false })
          = setAt (updAt t i fun r => { r with flag := true }) i
              { nodeAt (updAt t i fun r => { r with flag := true }) i with flag := false } := rfl
      rw [step, h1]
      have hrec : ({ { nodeAt t i with flag := true } with flag := false } : NodeRec)
          = nodeAt t i := by
        have hfl : (nodeAt t i).flag = false := by simpa using hf
        cases hr : nodeAt t i
        simp_all
      rw [hrec]
      show RBTree.mk ((t.heap.set i { nodeAt t i with flag := true }).set i (nodeAt t i))
          t.root t.count = t
      rw [List.set_set, set_self_of_getElem horig]
    simp only [lock, hf, if_false, Bool.false_eq_true]
    rw [if_pos hhp, key]

/-- Witness for C5 at a concrete node with one active reader. -/
theorem C5_witness :
    (nodeAt treeWithReader 0).hp > 0 ∧
      lock treeWithReader (some 0) = (false, treeWithReader) :=
  ⟨by decide, C5_lock_fails_on_readers treeWithReader 0 (by decide)⟩

/-- **C6.**  The retry loop of the public `Delete` coincides with the
spec-modelled policy `deleteRetrySpec`, which re-invokes the delete path on
every attempt (never the read path) until an attempt succeeds. -/
theorem C6_retry_reinvokes_delete :
    ∀ (fuel : Nat) (t : RBTree) (key : Int),
      deleteLoop fuel t key = deleteRetrySpec fuel t key := by
  intro fuel
  induction fuel with
  | zero => intro t key; rfl
  | succ n ih =>
    intro t key
    simp only [deleteLoop, deleteRetrySpec]
    cases delete (n+1) t t.root key [] [] with
    | none => rfl
    | some x =>
      obtain ⟨b, ok, t', l', m'⟩ := x
      cases ok with
      | true => rfl
      | false => simpa using ih t' key

/-- **C7 counterexample.**  Removal of the last node is not performed under
the per-node protocol: `Delete` on a single-node tree whose root
writer-flag is already held by another writer still sets `t.root` to none
and returns the value — it never acquires (or even reads) the root's
flag. -/
theorem C7_counterexample_flag_ignored :
    Delete 1 treeHeldRoot 1 = some (some 7, { treeHeldRoot with root := none, count := 0 }) := by
  decide

/-- **C7 amended.**  Root transitions in the rotation and inner-delete
paths happen inside the local-area protocol, but the two fast paths do
not: when `count == 1` and the root key matches, `Delete` rewrites
`t.root` to none regardless of the state of any writer-flag, and `Insert`
into an empty tree installs a fresh root with a plain assignment and no
flag acquisition. -/
theorem C7_root_transitions_unprotected :
    (∀ (t : RBTree) (r : Nat) (k : Int) (fuel : Nat),
        t.count = 1 → t.root = some r → (nodeAt t r).key = k →
        Delete fuel t k = some (some (nodeAt t r).value, { t with root := none, count := 0 })) ∧
    (∀ (t : RBTree) (k v : Int) (fuel : Nat), t.root = none →
        Insert fuel t k v = some { t with
          heap := t.heap ++ [⟨Color.red, none, none, none, k, v, false, 0, false⟩],
          root := some t.heap.length }) := by
  constructor
  · intro t r k fuel h1 h2 h3
    simp [Delete, h1, h2, h3]
  · intro t k v fuel h
    simp [Insert, h]

/-- Witness for C7 at the held-flag single-node tree. -/
theorem C7_witness :
    treeHeldRoot.count = 1 ∧
      Delete 3 treeHeldRoot 1 = some (some 7, { treeHeldRoot with root := none, count := 0 }) :=
  ⟨rfl, C7_root_transitions_unprotected.1 treeHeldRoot 0 1 3 rfl rfl rfl⟩

/-- **C10.**  On an empty tree (`root = nil`, e.g. after the last key was
deleted) `Get` handles the nil root totally: it returns `none` for every
key on the first attempt. -/
theorem C10_get_on_empty (fuel : Nat) (t : RBTree) (k : Int) (h : t.root = none) :
    Get (fuel+1) t k = some (none, t) := by
  simp [Get, getLoop, h, get]

/-- Witness for C10 on the literally empty tree. -/
theorem C10_witness :
    (RBTree.mk [] none 0).root = none ∧
      Get 1 (RBTree.mk [] none 0) 5 = some (none, RBTree.mk [] none 0) :=
  ⟨rfl, C10_get_on_empty 0 (RBTree.mk [] none 0) 5 rfl⟩

/-! ## The general absent-delete theorem (C9) -/

/-! ## Lemmas for the general delete theorem -/

theorem lt_length_of_getElem? {a : Type} {l : List a} {i : Nat} {x : a}
    (h : l[i]? = some x) : i < l.length := by
  by_contra hc
  rw [List.getElem?_eq_none (Nat.le_of_not_lt hc)] at h
  exact Option.noConfusion h

theorem nodeAt_eq_of_getElem? {t : RBTree} {i : Nat} {r : NodeRec}
    (h : t.heap[i]? = some r) : nodeAt t i = r := by simp [nodeAt, h]

theorem root_updAt (t : RBTree) (i : Nat) (f : NodeRec -> NodeRec) :
    (updAt t i f).root = t.root := rfl

theorem count_updAt (t : RBTree) (i : Nat) (f : NodeRec -> NodeRec) :
    (updAt t i f).count = t.count := rfl

theorem length_updAt (t : RBTree) (i : Nat) (f : NodeRec -> NodeRec) :
    (updAt t i f).heap.length = t.heap.length := by simp [updAt, setAt]

theorem getElem?_updAt_ne {t : RBTree} {i j : Nat} (h : i ≠ j) (f : NodeRec -> NodeRec) :
    (updAt t i f).heap[j]? = t.heap[j]? := by
  simp [updAt, setAt, List.getElem?_set_ne h]

theorem getElem?_updAt_self {t : RBTree} {i : Nat} (f : NodeRec -> NodeRec)
    (h : i < t.heap.length) :
    (updAt t i f).heap[i]? = some (f (nodeAt t i)) := by
  simp [updAt, setAt, List.getElem?_set_self h]

theorem flag_false_eta {r : NodeRec} (h : r.flag = false) :
    ({ r with flag := false } : NodeRec) = r := by
  cases r; simp_all

theorem RBTree_ext {t t2 : RBTree} (h1 : t.heap = t2.heap) (h2 : t.root = t2.root)
    (h3 : t.count = t2.count) : t = t2 := by
  cases t; cases t2; simp_all

theorem HeapShape_set_of_notin {h : List NodeRec} {p : Option Nat} {T : ITree}
    (hs : HeapShape h p T) {j : Nat} {r : NodeRec} (hj : j ∉ idsI T) :
    HeapShape (h.set j r) p T := by
  induction hs with
  | nil p => exact .nil p
  | node p i d l rr hrec hl hr ihl ihr =>
    simp only [idsI, List.mem_cons, List.mem_append] at hj
    push_neg at hj
    exact .node p i d l rr
      (by rw [List.getElem?_set_ne hj.1]; exact hrec)
      (ihl hj.2.1) (ihr hj.2.2)

theorem lock_succeeds {t : RBTree} {i : Nat} (hlen : i < t.heap.length)
    (hf : (nodeAt t i).flag = false) (hh : (nodeAt t i).hp ≤ 0) :
    lock t (some i) = (true, updAt t i fun r => { r with flag := true }) := by
  have h1 : nodeAt (updAt t i fun r => { r with flag := true }) i
      = { nodeAt t i with flag := true } := by
    simpa [updAt] using nodeAt_setAt_self (t := t)
      (r := { nodeAt t i with flag := true }) hlen
  simp only [lock]
  rw [if_neg (by simp [hf]), if_neg (by rw [h1]; exact not_lt.mpr hh)]


theorem nodeAt_updAt_ne {t : RBTree} {i j : Nat} (h : i ≠ j) (f : NodeRec -> NodeRec) :
    nodeAt (updAt t i f) j = nodeAt t j := by
  simp [nodeAt, getElem?_updAt_ne h]

theorem nodeAt_congr {t t2 : RBTree} {j : Nat} (h : t2.heap[j]? = t.heap[j]?) :
    nodeAt t2 j = nodeAt t j := by
  simp [nodeAt, h]

theorem flag_true_false_eta {r : NodeRec} (h : r.flag = false) :
    ({ ({ r with flag := true } : NodeRec) with flag := false } : NodeRec) = r := by
  cases r; simp_all

theorem root_unlock (t : RBTree) (o : Option Nat) : (unlock t o).root = t.root := by
  cases o with
  | none => rfl
  | some i =>
    simp only [unlock]
    split
    · rfl
    · rfl

theorem count_unlock (t : RBTree) (o : Option Nat) : (unlock t o).count = t.count := by
  cases o with
  | none => rfl
  | some i =>
    simp only [unlock]
    split
    · rfl
    · rfl

theorem length_unlock (t : RBTree) (o : Option Nat) :
    (unlock t o).heap.length = t.heap.length := by
  cases o with
  | none => rfl
  | some i =>
    simp only [unlock]
    split
    · simp [length_updAt]
    · rfl

theorem getElem?_unlock_ne {t : RBTree} {i j : Nat} (h : i ≠ j) :
    (unlock t (some i)).heap[j]? = t.heap[j]? := by
  simp only [unlock]
  split
  · exact getElem?_updAt_ne h _
  · rfl

theorem delete_miss_child (k : Int) (f : Nat) (t t2 : RBTree) (i : Nat)
    (p gp : Option Nat) (l m : List Nat) (Tc : ITree) (plenT : Nat)
    (IH : DeleteMissSpec k Tc)
    (hstep : delete (f+1) t (some i) k l m
      = match delete f t2 (rootO Tc) k l m with
        | none => none
        | some (v, ok, t3, l2, m2) => some (v, ok, unlock t3 (some i), l2, m2))
    (hplen : plenT = 1 + pathLen k Tc)
    (hlen : i < t.heap.length)
    (hflag : (nodeAt t i).flag = false)
    (hpar : (nodeAt t i).parent = p)
    (ht2i : nodeAt t2 i = { nodeAt t i with flag := true })
    (ht2root : t2.root = t.root) (ht2count : t2.count = t.count)
    (ht2len : t2.heap.length = t.heap.length)
    (ht2j : ∀ j : Nat, j ≠ i → gp ≠ some j → t2.heap[j]? = t.heap[j]?)
    (ht2gi : ∀ gi, gp = some gi → t2.heap[gi]? = some { nodeAt t gi with flag := false })
    (hshape : HeapShape t2.heap (some i) Tc)
    (hnd : (idsI Tc).Nodup)
    (hws : WellSync Tc)
    (hkc : k ∉ keysI Tc)
    (hsz : sizeI Tc < f)
    (hiTc : i ∉ idsI Tc)
    (hpi2 : ∀ pi, p = some pi → pi ∉ idsI Tc ∧ i ≠ pi ∧ (nodeAt t2 pi).flag = true)
    (hgppi : ∀ pi, p = some pi → gp ≠ some pi)
    (hgii : ∀ gi, gp = some gi → gi ≠ i)
    (hpgi : ∀ gi, gp = some gi → p ≠ some gi) :
    ∃ t4, delete (f+1) t (some i) k l m = some (none, true, t4, l, m) ∧
      t4.root = t.root ∧ t4.count = t.count ∧ t4.heap.length = t.heap.length ∧
      (∀ j : Nat, p ≠ some j → gp ≠ some j → t4.heap[j]? = t.heap[j]?) ∧
      (∀ gi, gp = some gi →
        (1 ≤ plenT → t4.heap[gi]? = some { nodeAt t gi with flag := false }) ∧
        (plenT = 0 → t4.heap[gi]? = t.heap[gi]?)) ∧
      (∀ pi, p = some pi →
        (2 ≤ plenT → t4.heap[pi]? = some { nodeAt t pi with flag := false }) ∧
        (plenT ≤ 1 → t4.heap[pi]? = t.heap[pi]?)) := by
  obtain ⟨t3, heq3, hroot3, hcount3, hlen3, hj3, hgp3, hp3⟩ :=
    IH f t2 (some i) p l m hshape hnd hws hkc hsz
      (fun h => Option.noConfusion h)
      (fun pi hpi => by
        cases hpi
        exact ⟨hiTc, by rw [ht2i]; exact hpar, by rw [ht2i]⟩)
      (fun pi hpi => by
        obtain ⟨h1, h2, h3⟩ := hpi2 pi hpi
        exact ⟨h1, fun he => h2 (Option.some.inj he), h3⟩)
  have hlent2 : i < t2.heap.length := by rw [ht2len]; exact hlen
  have ht2iElem : t2.heap[i]? = some ({ nodeAt t i with flag := true }) := by
    rw [← ht2i]
    exact getElem_eq_nodeAt hlent2
  have hfin : (unlock t3 (some i)).root = t3.root ∧ (unlock t3 (some i)).count = t3.count ∧
      (unlock t3 (some i)).heap.length = t3.heap.length ∧
      (∀ j, j ≠ i → (unlock t3 (some i)).heap[j]? = t3.heap[j]?) ∧
      (unlock t3 (some i)).heap[i]? = some (nodeAt t i) := by
    by_cases hcase : 2 ≤ pathLen k Tc
    · have h1 : t3.heap[i]? = some (nodeAt t i) := by
        have hx := (hp3 i rfl).1 hcase
        rw [ht2i] at hx
        rw [hx]
        exact congrArg some (flag_true_false_eta hflag)
      have hflagi : (nodeAt t3 i).flag = false := by
        rw [nodeAt_eq_of_getElem? h1]; exact hflag
      have hu : unlock t3 (some i) = t3 := by simp [unlock, hflagi]
      rw [hu]
      exact ⟨rfl, rfl, rfl, fun j _ => rfl, h1⟩
    · have h2 : t3.heap[i]? = some ({ nodeAt t i with flag := true }) := by
        have hx := (hp3 i rfl).2 (by omega)
        rw [hx]
        exact ht2iElem
      have hflagi : (nodeAt t3 i).flag = true := by
        rw [nodeAt_eq_of_getElem? h2]
      have hu : unlock t3 (some i) = updAt t3 i fun r => { r with flag := false } := by
        simp [unlock, hflagi]
      rw [hu]
      refine ⟨rfl, rfl, length_updAt _ _ _, fun j hj => getElem?_updAt_ne (fun he => hj he.symm) _, ?_⟩
      rw [getElem?_updAt_self _ (by rw [hlen3, ht2len]; exact hlen)]
      rw [nodeAt_eq_of_getElem? h2]
      exact congrArg some (flag_true_false_eta hflag)
  obtain ⟨hfr, hfc, hfl, hfj, hfi⟩ := hfin
  refine ⟨unlock t3 (some i), ?_, ?_, ?_, ?_, ?_, ?_, ?_⟩
  · rw [hstep, heq3]
  · rw [hfr, hroot3, ht2root]
  · rw [hfc, hcount3, ht2count]
  · rw [hfl, hlen3, ht2len]
  · intro j hpj hgpj
    by_cases hji : j = i
    · subst hji
      rw [hfi]
      exact (getElem_eq_nodeAt hlen).symm
    · rw [hfj j hji, hj3 j (fun he => hji (Option.some.inj he).symm) hpj, ht2j j hji hgpj]
  · intro gi hgi
    refine ⟨fun _ => ?_, fun h0 => by omega⟩
    rw [hfj gi (hgii gi hgi), hj3 gi (fun he => (hgii gi hgi) (Option.some.inj he).symm) (hpgi gi hgi),
      ht2gi gi hgi]
  · intro pi hpi
    obtain ⟨hpiTc, hipi, _⟩ := hpi2 pi hpi
    have hline : t2.heap[pi]? = t.heap[pi]? :=
      ht2j pi (fun he => hipi he.symm) (hgppi pi hpi)
    constructor
    · intro h2
      have h1c : 1 ≤ pathLen k Tc := by omega
      have hx := (hgp3 pi hpi).1 h1c
      rw [nodeAt_congr hline] at hx
      rw [hfj pi (fun he => hipi he.symm), hx]
    · intro hle
      have h0c : pathLen k Tc = 0 := by omega
      have hx := (hgp3 pi hpi).2 h0c
      rw [hfj pi (fun he => hipi he.symm), hx, hline]


theorem delete_miss (k : Int) : ∀ T : ITree, DeleteMissSpec k T := by
  intro T
  induction T with
  | nil =>
    intro fuel t p gp l m hs hnd hws hk hfuel hpg hp hgp
    cases fuel with
    | zero => simp [sizeI] at hfuel
    | succ f =>
      exact ⟨t, rfl, rfl, rfl, rfl, fun j _ _ => rfl,
        fun gi hgi => ⟨fun h1 => by simp [pathLen] at h1, fun _ => rfl⟩,
        fun pi hpi => ⟨fun h2 => by simp [pathLen] at h2, fun _ => rfl⟩⟩
  | node i d Tl Tr ihl ihr =>
    intro fuel t p gp l m hs hnd hws hk hfuel hpg hp hgp
    cases fuel with
    | zero => simp [sizeI] at hfuel
    | succ f =>
      cases hs with
      | node _ _ _ _ _ hrec hsl hsr =>
      have hlen : i < t.heap.length := lt_length_of_getElem? hrec
      have hnode : nodeAt t i = d.toRec p (rootO Tl) (rootO Tr) := nodeAt_eq_of_getElem? hrec
      have hflag : (nodeAt t i).flag = false := by rw [hnode]; exact hws.1
      have hhp : (nodeAt t i).hp ≤ 0 := by rw [hnode]; exact hws.2.1
      have hpar : (nodeAt t i).parent = p := by rw [hnode]; rfl
      have hileft : (nodeAt t i).left = rootO Tl := by rw [hnode]; rfl
      have hiright : (nodeAt t i).right = rootO Tr := by rw [hnode]; rfl
      have hkey : (nodeAt t i).key = d.key := by rw [hnode]; rfl
      have hnd0 := List.nodup_cons.1 (show (i :: (idsI Tl ++ idsI Tr)).Nodup from hnd)
      have hiTl : i ∉ idsI Tl := fun hm => hnd0.1 (List.mem_append.2 (Or.inl hm))
      have hiTr : i ∉ idsI Tr := fun hm => hnd0.1 (List.mem_append.2 (Or.inr hm))
      have hndl : (idsI Tl).Nodup := hnd0.2.of_append_left
      have hndr : (idsI Tr).Nodup := hnd0.2.of_append_right
      have hk0 : ¬ (k = d.key ∨ k ∈ keysI Tl ∨ k ∈ keysI Tr) := by
        simpa [keysI] using hk
      push_neg at hk0
      obtain ⟨hkne, hkl, hkr⟩ := hk0
      obtain ⟨hwf, hwh, hwl, hwr⟩ := hws
      have hszl : sizeI Tl < f := by simp [sizeI] at hfuel; omega
      have hszr : sizeI Tr < f := by simp [sizeI] at hfuel; omega
      have hiMem : i ∈ idsI (ITree.node i d Tl Tr) := by simp [idsI]
      have hlock : lock t (some i) = (true, updAt t i fun r => { r with flag := true }) :=
        lock_succeeds hlen hflag hhp
      have ht1i : nodeAt (updAt t i fun r => { r with flag := true }) i
          = { nodeAt t i with flag := true } := by
        simpa [updAt] using nodeAt_setAt_self (t := t)
          (r := { nodeAt t i with flag := true }) hlen
      rcases p with _ | pi
      · -- p = none, hence gp = none
        have hGP : gp = none := hpg rfl
        subst hGP
        have hp1 : (nodeAt (updAt t i fun r => { r with flag := true }) i).parent = none := by
          rw [ht1i]; exact hpar
        have ht1key : (nodeAt (updAt t i fun r => { r with flag := true }) i).key = d.key := by
          rw [ht1i]; exact hkey
        have ht2j : ∀ j : Nat, j ≠ i → (none : Option Nat) ≠ some j →
            (updAt t i fun r => { r with flag := true }).heap[j]? = t.heap[j]? :=
          fun j hj _ => getElem?_updAt_ne (fun he => hj he.symm) _
        rcases lt_or_gt_of_ne hkne with hclt | hcgt
        · have hc2 : cmpI k (nodeAt (updAt t i fun r => { r with flag := true }) i).key
              = Ordering.lt := by rw [ht1key]; simp [cmpI, hclt]
          have ht1left : (nodeAt (updAt t i fun r => { r with flag := true }) i).left
              = rootO Tl := by rw [ht1i]; exact hileft
          have hstep : delete (f+1) t (some i) k l m
              = match delete f (updAt t i fun r => { r with flag := true }) (rootO Tl) k l m with
                | none => none
                | some (v, ok, t3, l2, m2) => some (v, ok, unlock t3 (some i), l2, m2) := by
            simp only [delete, hlock, hp1, hc2, ht1left]
          exact delete_miss_child k f t _ i none none l m Tl _ ihl hstep
            (by simp [pathLen, hclt]) hlen hflag hpar ht1i rfl rfl (length_updAt _ _ _)
            ht2j (fun gi hgi => Option.noConfusion hgi)
            (HeapShape_set_of_notin hsl hiTl) hndl hwl hkl hszl hiTl
            (fun pi h => Option.noConfusion h) (fun pi h => Option.noConfusion h)
            (fun gi h => Option.noConfusion h) (fun gi h => Option.noConfusion h)
        · have hc2 : cmpI k (nodeAt (updAt t i fun r => { r with flag := true }) i).key
              = Ordering.gt := by rw [ht1key]; simp [cmpI, hcgt, not_lt_of_gt hcgt]
          have ht1right : (nodeAt (updAt t i fun r => { r with flag := true }) i).right
              = rootO Tr := by rw [ht1i]; exact hiright
          have hstep : delete (f+1) t (some i) k l m
              = match delete f (updAt t i fun r => { r with flag := true }) (rootO Tr) k l m with
                | none => none
                | some (v, ok, t3, l2, m2) => some (v, ok, unlock t3 (some i), l2, m2) := by
            simp only [delete, hlock, hp1, hc2, ht1right]
          exact delete_miss_child k f t _ i none none l m Tr _ ihr hstep
            (by simp [pathLen, not_lt_of_gt hcgt]) hlen hflag hpar ht1i rfl rfl
            (length_updAt _ _ _) ht2j (fun gi hgi => Option.noConfusion hgi)
            (HeapShape_set_of_notin hsr hiTr) hndr hwr hkr hszr hiTr
            (fun pi h => Option.noConfusion h) (fun pi h => Option.noConfusion h)
            (fun gi h => Option.noConfusion h) (fun gi h => Option.noConfusion h)
      · -- p = some pi
        obtain ⟨hpiN, hpiPar, hpiFlag⟩ := hp pi rfl
        have hipi : i ≠ pi := fun he => hpiN (he ▸ hiMem)
        have hpiTl : pi ∉ idsI Tl := fun hm => hpiN (by simp [idsI, hm])
        have hpiTr : pi ∉ idsI Tr := fun hm => hpiN (by simp [idsI, hm])
        have hp1 : (nodeAt (updAt t i fun r => { r with flag := true }) i).parent = some pi := by
          rw [ht1i]; exact hpar
        have hppi : nodeAt (updAt t i fun r => { r with flag := true }) pi = nodeAt t pi :=
          nodeAt_updAt_ne hipi _
        have ht1key : (nodeAt (updAt t i fun r => { r with flag := true }) i).key = d.key := by
          rw [ht1i]; exact hkey
        rcases gp with _ | gi
        · -- gp = none: no grandparent unlock
          have hp2 : (nodeAt (updAt t i fun r => { r with flag := true }) pi).parent = none := by
            rw [hppi]; exact hpiPar
          have ht2j : ∀ j : Nat, j ≠ i → (none : Option Nat) ≠ some j →
              (updAt t i fun r => { r with flag := true }).heap[j]? = t.heap[j]? :=
            fun j hj _ => getElem?_updAt_ne (fun he => hj he.symm) _
          have hpi2 : ∀ pi2, (some pi : Option Nat) = some pi2 → pi2 ∉ idsI Tl ∧ i ≠ pi2 ∧
              (nodeAt (updAt t i fun r => { r with flag := true }) pi2).flag = true := by
            intro pi2 hpi2
            cases Option.some.inj hpi2
            exact ⟨hpiTl, hipi, by rw [hppi]; exact hpiFlag⟩
          have hpi2r : ∀ pi2, (some pi : Option Nat) = some pi2 → pi2 ∉ idsI Tr ∧ i ≠ pi2 ∧
              (nodeAt (updAt t i fun r => { r with flag := true }) pi2).flag = true := by
            intro pi2 hpi2
            cases Option.some.inj hpi2
            exact ⟨hpiTr, hipi, by rw [hppi]; exact hpiFlag⟩
          rcases lt_or_gt_of_ne hkne with hclt | hcgt
          · have hc2 : cmpI k (nodeAt (updAt t i fun r => { r with flag := true }) i).key
                = Ordering.lt := by rw [ht1key]; simp [cmpI, hclt]
            have ht1left : (nodeAt (updAt t i fun r => { r with flag := true }) i).left
                = rootO Tl := by rw [ht1i]; exact hileft
            have hstep : delete (f+1) t (some i) k l m
                = match delete f (updAt t i fun r => { r with flag := true }) (rootO Tl) k l m with
                  | none => none
                  | some (v, ok, t3, l2, m2) => some (v, ok, unlock t3 (some i), l2, m2) := by
              simp only [delete, hlock, hp1, hp2, hc2, ht1left]
            exact delete_miss_child k f t _ i (some pi) none l m Tl _ ihl hstep
              (by simp [pathLen, hclt]) hlen hflag hpar ht1i rfl rfl (length_updAt _ _ _)
              ht2j (fun gi hgi => Option.noConfusion hgi)
              (HeapShape_set_of_notin hsl hiTl) hndl hwl hkl hszl hiTl
              hpi2 (fun pi2 _ he => Option.noConfusion he)
              (fun gi h => Option.noConfusion h) (fun gi h => Option.noConfusion h)
          · have hc2 : cmpI k (nodeAt (updAt t i fun r => { r with flag := true }) i).key
                = Ordering.gt := by rw [ht1key]; simp [cmpI, hcgt, not_lt_of_gt hcgt]
            have ht1right : (nodeAt (updAt t i fun r => { r with flag := true }) i).right
                = rootO Tr := by rw [ht1i]; exact hiright
            have hstep : delete (f+1) t (some i) k l m
                = match delete f (updAt t i fun r => { r with flag := true }) (rootO Tr) k l m with
                  | none => none
                  | some (v, ok, t3, l2, m2) => some (v, ok, unlock t3 (some i), l2, m2) := by
              simp only [delete, hlock, hp1, hp2, hc2, ht1right]
            exact delete_miss_child k f t _ i (some pi) none l m Tr _ ihr hstep
              (by simp [pathLen, not_lt_of_gt hcgt]) hlen hflag hpar ht1i rfl rfl
              (length_updAt _ _ _) ht2j (fun gi hgi => Option.noConfusion hgi)
              (HeapShape_set_of_notin hsr hiTr) hndr hwr hkr hszr hiTr
              hpi2r (fun pi2 _ he => Option.noConfusion he)
              (fun gi h => Option.noConfusion h) (fun gi h => Option.noConfusion h)
        · -- gp = some gi: the grandparent is unlocked during the descent
          obtain ⟨hgiN, hgiNe, hgiFlag⟩ := hgp gi rfl
          have higi : i ≠ gi := fun he => hgiN (he ▸ hiMem)
          have hpigi : pi ≠ gi := fun he => hgiNe (by rw [he])
          have hgiTl : gi ∉ idsI Tl := fun hm => hgiN (by simp [idsI, hm])
          have hgiTr : gi ∉ idsI Tr := fun hm => hgiN (by simp [idsI, hm])
          have hgilen : gi < t.heap.length := by
            by_contra hc
            rw [nodeAt_lt_length hc] at hgiFlag
            simp at hgiFlag
          have hp2 : (nodeAt (updAt t i fun r => { r with flag := true }) pi).parent
              = some gi := by rw [hppi]; exact hpiPar
          have ht1gi : nodeAt (updAt t i fun r => { r with flag := true }) gi = nodeAt t gi :=
            nodeAt_updAt_ne higi _
          have hgiflag1 : (nodeAt (updAt t i fun r => { r with flag := true }) gi).flag
              = true := by rw [ht1gi]; exact hgiFlag
          have hunl : unlock (updAt t i fun r => { r with flag := true }) (some gi)
              = updAt (updAt t i fun r => { r with flag := true }) gi
                  fun r => { r with flag := false } := by
            simp [unlock, hgiflag1]
          have hlent1gi : gi < (updAt t i fun r => { r with flag := true }).heap.length := by
            rw [length_updAt]; exact hgilen
          have ht2i : nodeAt (updAt (updAt t i fun r => { r with flag := true }) gi
                fun r => { r with flag := false }) i
              = { nodeAt t i with flag := true } := by
            rw [nodeAt_updAt_ne (Ne.symm higi) _, ht1i]
          have ht2key : (nodeAt (updAt (updAt t i fun r => { r with flag := true }) gi
                fun r => { r with flag := false }) i).key = d.key := by
            rw [ht2i]; exact hkey
          have ht2len : (updAt (updAt t i fun r => { r with flag := true }) gi
                fun r => { r with flag := false }).heap.length = t.heap.length := by
            rw [length_updAt, length_updAt]
          have ht2j : ∀ j : Nat, j ≠ i → (some gi : Option Nat) ≠ some j →
              (updAt (updAt t i fun r => { r with flag := true }) gi
                fun r => { r with flag := false }).heap[j]? = t.heap[j]? := by
            intro j hj hgj
            have hgij : gi ≠ j := fun he => hgj (by rw [he])
            rw [getElem?_updAt_ne hgij, getElem?_updAt_ne (fun he => hj he.symm)]
          have ht2gi : ∀ gi2, (some gi : Option Nat) = some gi2 →
              (updAt (updAt t i fun r => { r with flag := true }) gi
                fun r => { r with flag := false }).heap[gi2]?
              = some { nodeAt t gi2 with flag := false } := by
            intro gi2 hg
            cases Option.some.inj hg
            rw [getElem?_updAt_self _ hlent1gi, ht1gi]
          have hshapel : HeapShape (updAt (updAt t i fun r => { r with flag := true }) gi
                fun r => { r with flag := false }).heap (some i) Tl :=
            HeapShape_set_of_notin (HeapShape_set_of_notin hsl hiTl) hgiTl
          have hshaper : HeapShape (updAt (updAt t i fun r => { r with flag := true }) gi
                fun r => { r with flag := false }).heap (some i) Tr :=
            HeapShape_set_of_notin (HeapShape_set_of_notin hsr hiTr) hgiTr
          have hpi2l : ∀ pi2, (some pi : Option Nat) = some pi2 → pi2 ∉ idsI Tl ∧ i ≠ pi2 ∧
              (nodeAt (updAt (updAt t i fun r => { r with flag := true }) gi
                fun r => { r with flag := false }) pi2).flag = true := by
            intro pi2 hh
            cases Option.some.inj hh
            refine ⟨hpiTl, hipi, ?_⟩
            rw [nodeAt_updAt_ne (Ne.symm hpigi) _, hppi]
            exact hpiFlag
          have hpi2r : ∀ pi2, (some pi : Option Nat) = some pi2 → pi2 ∉ idsI Tr ∧ i ≠ pi2 ∧
              (nodeAt (updAt (updAt t i fun r => { r with flag := true }) gi
                fun r => { r with flag := false }) pi2).flag = true := by
            intro pi2 hh
            cases Option.some.inj hh
            refine ⟨hpiTr, hipi, ?_⟩
            rw [nodeAt_updAt_ne (Ne.symm hpigi) _, hppi]
            exact hpiFlag
          have hgppi : ∀ pi2, (some pi : Option Nat) = some pi2 →
              (some gi : Option Nat) ≠ some pi2 := by
            intro pi2 hh
            cases Option.some.inj hh
            exact fun he => hpigi (Option.some.inj he).symm
          have hgii : ∀ gi2, (some gi : Option Nat) = some gi2 → gi2 ≠ i := by
            intro gi2 hh
            cases Option.some.inj hh
            exact Ne.symm higi
          have hpgi : ∀ gi2, (some gi : Option Nat) = some gi2 →
              (some pi : Option Nat) ≠ some gi2 := by
            intro gi2 hh
            cases Option.some.inj hh
            exact fun he => hpigi (Option.some.inj he)
          rcases lt_or_gt_of_ne hkne with hclt | hcgt
          · have hc2 : cmpI k (nodeAt (updAt (updAt t i fun r => { r with flag := true }) gi
                  fun r => { r with flag := false }) i).key = Ordering.lt := by
              rw [ht2key]; simp [cmpI, hclt]
            have ht2left : (nodeAt (updAt (updAt t i fun r => { r with flag := true }) gi
                  fun r => { r with flag := false }) i).left = rootO Tl := by
              rw [ht2i]; exact hileft
            have hstep : delete (f+1) t (some i) k l m
                = match delete f (updAt (updAt t i fun r => { r with flag := true }) gi
                      fun r => { r with flag := false }) (rootO Tl) k l m with
                  | none => none
                  | some (v, ok, t3, l2, m2) => some (v, ok, unlock t3 (some i), l2, m2) := by
              simp only [delete, hlock, hp1, hp2, hunl, hc2, ht2left]
            exact delete_miss_child k f t _ i (some pi) (some gi) l m Tl _ ihl hstep
              (by simp [pathLen, hclt]) hlen hflag hpar ht2i rfl rfl ht2len
              ht2j ht2gi hshapel hndl hwl hkl hszl hiTl hpi2l hgppi hgii hpgi
          · have hc2 : cmpI k (nodeAt (updAt (updAt t i fun r => { r with flag := true }) gi
                  fun r => { r with flag := false }) i).key = Ordering.gt := by
              rw [ht2key]; simp [cmpI, hcgt, not_lt_of_gt hcgt]
            have ht2right : (nodeAt (updAt (updAt t i fun r => { r with flag := true }) gi
                  fun r => { r with flag := false }) i).right = rootO Tr := by
              rw [ht2i]; exact hiright
            have hstep : delete (f+1) t (some i) k l m
                = match delete f (updAt (updAt t i fun r => { r with flag := true }) gi
                      fun r => { r with flag := false }) (rootO Tr) k l m with
                  | none => none
                  | some (v, ok, t3, l2, m2) => some (v, ok, unlock t3 (some i), l2, m2) := by
              simp only [delete, hlock, hp1, hp2, hunl, hc2, ht2right]
            exact delete_miss_child k f t _ i (some pi) (some gi) l m Tr _ ihr hstep
              (by simp [pathLen, not_lt_of_gt hcgt]) hlen hflag hpar ht2i rfl rfl ht2len
              ht2j ht2gi hshaper hndr hwr hkr hszr hiTr hpi2r hgppi hgii hpgi


theorem heapShape_tree102 : HeapShape tree102.heap none treeI102 := by
  refine .node _ _ _ _ _ ?_ (.node _ _ _ _ _ ?_ (.nil _) (.nil _))
    (.node _ _ _ _ _ ?_ (.nil _) (.nil _)) <;> rfl

/-- **C9.**  For every well-formed quiescent tree that does not contain
key `k` (arena described by the pure tree `T`, all writer-flags clear, no
active readers, and — excluding the state on which the Go code would
dereference a nil root — `count ≠ 1` when the tree is empty), `Delete(k)`
returns none on its first attempt and leaves the tree bit-for-bit
unchanged: the hand-over-hand locks taken during the descent are all
released, which is stronger than the claimed equality modulo color. -/
theorem C9_absent_delete_unchanged (T : ITree) (t : RBTree) (k : Int) (fuel : Nat)
    (hs : HeapShape t.heap none T) (hroot : t.root = rootO T)
    (hnd : (idsI T).Nodup) (hws : WellSync T)
    (hk : k ∉ keysI T)
    (hfuel : sizeI T < fuel)
    (hnil : T = .nil → t.count ≠ 1) :
    Delete fuel t k = some (none, t) := by
  have hloop : deleteLoop fuel t k = some (none, t) := by
    cases fuel with
    | zero => omega
    | succ f =>
      obtain ⟨t2, heq, hroot2, hcount2, hlen2, hj2, _, _⟩ :=
        delete_miss k T (f+1) t none none [] [] hs hnd hws hk hfuel (fun _ => rfl)
          (fun pi h => Option.noConfusion h) (fun gi h => Option.noConfusion h)
      have ht2 : t2 = t := by
        apply RBTree_ext
        · exact List.ext_getElem? fun n =>
            hj2 n (fun h => Option.noConfusion h) (fun h => Option.noConfusion h)
        · exact hroot2
        · exact hcount2
      rw [deleteLoop, hroot, heq]
      simp [ht2]
  by_cases hc : t.count = 1
  · cases T with
    | nil => exact absurd hc (hnil rfl)
    | node i d Tl Tr =>
      have hroot2 : t.root = some i := hroot
      cases hs with
      | node _ _ _ _ _ hrec hsl hsr =>
      have hnode : nodeAt t i = d.toRec none (rootO Tl) (rootO Tr) := nodeAt_eq_of_getElem? hrec
      have hkne : ¬ (nodeAt t i).key = k := by
        rw [hnode]
        intro he
        exact hk (by simp [keysI, ← he]; left; rfl)
      simp [Delete, hc, hroot2, hkne, hloop]
  · simp [Delete, hc, hloop]

theorem C9_witness :
    (5:Int) ∉ keysI treeI102 ∧ Delete 9 tree102 5 = some (none, tree102) :=
  ⟨by decide, C9_absent_delete_unchanged treeI102 tree102 5 9 heapShape_tree102 rfl
    (by decide) (by simp [WellSync]) (by decide) (by decide)
    (fun h => ITree.noConfusion h)⟩

end RBGo
